import Mathlib

/-!
Verification of the resumable byte-stream consumer in sstables/consumer.hh.

The development shallowly embeds the `continuous_data_consumer` engine:
buffers (`temporary_buffer<char>`) become lists of bytes, the prestate
machine and its scratch areas become explicit record fields, and the
runtime asserts and the malformed-input exception become `Option`
(`none` = abort).  The StateProcessor is kept abstract where a claim
quantifies over processors, and is instantiated by a straight-line
"read program" processor for the slicing-invariance claims.
-/

namespace Consumer

/-- A byte of the input stream (0 .. 255 in real executions). -/
abbrev Byte := Nat

/-- Model of `temporary_buffer<char>`: the list of bytes of the view.
`trim_front n` is `List.drop n`, `trim 0` is `[]`, `share (0, len)` is
`List.take len`. -/
abbrev Buffer := List Byte

/-- Big-endian decoding, as done by `read_be<T>` on the fast path and by
`net::ntoh` on the scratch union at prestate completion. -/
def read_be (bs : Buffer) : Nat := bs.foldl (fun a b => 256 * a + b) 0

/-- Big-endian encoding of `v` on `w` bytes: the wire format that the
consumer decodes. -/
def encode_be : Nat → Nat → Buffer
  | 0, _ => []
  | w + 1, v => encode_be w (v / 256) ++ [v % 256]

/-- A primitive value published to the StateProcessor: an assignment to
`_u8`, `_u16`, `_u32`, `_u64` or to the `read_bytes` destination slot. -/
inductive Value where
  | vU8 : Nat → Value
  | vU16 : Nat → Value
  | vU32 : Nat → Value
  | vU64 : Nat → Value
  | vBytes : Buffer → Value
deriving DecidableEq, Repr

/-- The `prestate` enum: which primitive read is in flight across buffers. -/
inductive Prestate where
  | NONE
  | READING_U8
  | READING_U16
  | READING_U32
  | READING_U64
  | READING_BYTES
deriving DecidableEq, Repr

/-- The read-machine part of `continuous_data_consumer`: `_prestate`,
`_pos`, the scratch areas and the published slots.  `readInt` models the
`_read_int.bytes` scratch array as the `pos` bytes accumulated so far
(the C++ array holds exactly those bytes at offsets `0 .. pos-1`; the
rest is never read).  Likewise `readBytes` holds the `pos` bytes
accumulated into `_read_bytes`, whose allocated size is `readBytesLen`.
`slot` is the destination `*_read_bytes_where`; which slot of the
concrete processor it aliases is irrelevant to the claims, so a single
slot is modelled. -/
structure RS where
  prestate : Prestate := Prestate.NONE
  pos : Nat := 0
  readInt : Buffer := []
  readBytes : Buffer := []
  readBytesLen : Nat := 0
  u8 : Nat := 0
  u16 : Nat := 0
  u32 : Nat := 0
  u64 : Nat := 0
  slot : Buffer := []
deriving DecidableEq, Repr

/-- The `read_status` enum returned by the read primitives. -/
inductive ReadStatus where
  | ready
  | waiting
deriving DecidableEq, Repr

/-- read_8: if a byte is available consume it into `_u8` (fast path),
otherwise arm the `READING_U8` prestate.  The slow path runs only on an
empty buffer, so nothing is copied; the scratch is reset to the empty
accumulation (`pos = 0`). -/
def read_8 (s : RS) (data : Buffer) : RS × Buffer × List Value × ReadStatus :=
  if 1 ≤ data.length then
    ({ s with u8 := read_be (data.take 1) }, data.drop 1,
      [Value.vU8 (read_be (data.take 1))], ReadStatus.ready)
  else
    ({ s with pos := 0, readInt := [], prestate := Prestate.READING_U8 },
      data, [], ReadStatus.waiting)

/-- read_16: fast path decodes big-endian from the buffer head and trims
it; slow path copies the whole (short) buffer into the scratch, records
`pos`, trims the buffer to empty and arms `READING_U16`. -/
def read_16 (s : RS) (data : Buffer) : RS × Buffer × List Value × ReadStatus :=
  if 2 ≤ data.length then
    ({ s with u16 := read_be (data.take 2) }, data.drop 2,
      [Value.vU16 (read_be (data.take 2))], ReadStatus.ready)
  else
    ({ s with readInt := data, pos := data.length, prestate := Prestate.READING_U16 },
      [], [], ReadStatus.waiting)

/-- read_32, with the same two paths as read_16. -/
def read_32 (s : RS) (data : Buffer) : RS × Buffer × List Value × ReadStatus :=
  if 4 ≤ data.length then
    ({ s with u32 := read_be (data.take 4) }, data.drop 4,
      [Value.vU32 (read_be (data.take 4))], ReadStatus.ready)
  else
    ({ s with readInt := data, pos := data.length, prestate := Prestate.READING_U32 },
      [], [], ReadStatus.waiting)

/-- read_64, with the same two paths as read_16. -/
def read_64 (s : RS) (data : Buffer) : RS × Buffer × List Value × ReadStatus :=
  if 8 ≤ data.length then
    ({ s with u64 := read_be (data.take 8) }, data.drop 8,
      [Value.vU64 (read_be (data.take 8))], ReadStatus.ready)
  else
    ({ s with readInt := data, pos := data.length, prestate := Prestate.READING_U64 },
      [], [], ReadStatus.waiting)

/-- read_bytes: fast path publishes a `share` of the first `len` bytes to
the destination slot and trims; slow path allocates a `len`-byte buffer,
copies the partial data, trims the buffer to empty and arms
`READING_BYTES`. -/
def read_bytes (s : RS) (data : Buffer) (len : Nat) :
    RS × Buffer × List Value × ReadStatus :=
  if len ≤ data.length then
    ({ s with slot := data.take len }, data.drop len,
      [Value.vBytes (data.take len)], ReadStatus.ready)
  else
    ({ s with
        readBytes := data, readBytesLen := len, pos := data.length,
        prestate := Prestate.READING_BYTES },
      [], [], ReadStatus.waiting)

/-- Width in bytes of an armed integer prestate (the `switch` computing
`len` in do_process_buffer); `none` for the tags that fall into the
`default:` branch and throw `malformed_sstable_exception`. -/
def intWidth : Prestate → Option Nat
  | Prestate.READING_U8 => some 1
  | Prestate.READING_U16 => some 2
  | Prestate.READING_U32 => some 4
  | Prestate.READING_U64 => some 8
  | _ => none

/-- Store a completed integer into its published slot (`_u8` .. `_u64`),
returning the publication event.  The default branch is unreachable when
the caller has already matched an integer prestate. -/
def storeInt : Prestate → Nat → RS → RS × List Value
  | Prestate.READING_U8, v, s => ({ s with u8 := v }, [Value.vU8 v])
  | Prestate.READING_U16, v, s => ({ s with u16 := v }, [Value.vU16 v])
  | Prestate.READING_U32, v, s => ({ s with u32 := v }, [Value.vU32 v])
  | Prestate.READING_U64, v, s => ({ s with u64 := v }, [Value.vU64 v])
  | _, _, s => (s, [])

/-- do_process_buffer: resume the in-flight primitive read from the new
buffer.  Copies `min(width - pos, data.size())` bytes into the scratch,
advances the cursor, and on completion publishes the value and disarms.
`none` models the thrown `malformed_sstable_exception` (unknown
prestate) and the `assert(_pos < len)`. -/
def do_process_buffer (s : RS) (data : Buffer) : Option (RS × Buffer × List Value) :=
  match s.prestate with
  | Prestate.READING_BYTES =>
    let n := min (s.readBytesLen - s.pos) data.length
    let acc := s.readBytes ++ data.take n
    let pos2 := s.pos + n
    if pos2 = s.readBytesLen then
      some ({ s with
          readBytes := [], pos := pos2, slot := acc,
          prestate := Prestate.NONE },
        data.drop n, [Value.vBytes acc])
    else
      some ({ s with readBytes := acc, pos := pos2 }, data.drop n, [])
  | ps =>
    match intWidth ps with
    | none => none
    | some len =>
      if s.pos < len then
        let n := min (len - s.pos) data.length
        let acc := s.readInt ++ data.take n
        let pos2 := s.pos + n
        if pos2 = len then
          let sv := storeInt ps (read_be acc) { s with readInt := acc, pos := pos2 }
          some ({ sv.1 with prestate := Prestate.NONE }, data.drop n, sv.2)
        else
          some ({ s with readInt := acc, pos := pos2 }, data.drop n, [])
      else none

/-- process_buffer: run do_process_buffer only when a prestate is armed. -/
def process_buffer (s : RS) (data : Buffer) : Option (RS × Buffer × List Value) :=
  if s.prestate ≠ Prestate.NONE then do_process_buffer s data else some (s, data, [])

/-- The `processing_result` variant: `proceed::yes`, `proceed::no`, or
`skip_bytes{n}`. -/
inductive PResult where
  | yes
  | no
  | skip (n : Nat)
deriving DecidableEq, Repr

/-- operator==(processing_result, proceed) specialised to `proceed::yes`:
true only when the variant holds `proceed` and it equals `yes` (a
`skip_bytes` compares unequal). -/
def presEqYes : PResult → Bool
  | PResult.yes => true
  | _ => false

/-- An abstract StateProcessor: `step` is `process_state` (which may use
the read primitives and hence update the read-machine state `RS`, trim
the buffer, publish values and return a verdict), and `non_consuming`
is the hook of the same name. `π` is the processor-private state. -/
structure Processor (π : Type) where
  step : π → RS → Buffer → π × RS × Buffer × List Value × PResult
  non_consuming : π → Bool

/-- process: the inner drive loop.  While the buffer is non-empty or the
processor is in a non-consuming state: resume any armed prestate; if it
is still armed, assert the buffer was drained (`none` on failure) and
return `proceed::yes`; otherwise invoke `process_state` and return any
verdict other than `proceed::yes`.  The loop is expressed with fuel
(`none` on exhaustion); every theorem about it supplies enough fuel. -/
def process {π : Type} (P : Processor π) :
    Nat → π → RS → Buffer → Option (π × RS × Buffer × List Value × PResult)
  | 0, _, _, _ => none
  | fuel + 1, p, s, data =>
    if data ≠ [] ∨ P.non_consuming p = true then
      match process_buffer s data with
      | none => none
      | some (s1, d1, ev1) =>
        if s1.prestate ≠ Prestate.NONE then
          if d1 = [] then some (p, s1, d1, ev1, PResult.yes) else none
        else
          match P.step p s1 d1 with
          | (p2, s2, d2, ev2, ret) =>
            if presEqYes ret then
              match process P fuel p2 s2 d2 with
              | none => none
              | some (p3, s3, d3, ev3, res) =>
                some (p3, s3, d3, ev1 ++ ev2 ++ ev3, res)
            else some (p2, s2, d2, ev1 ++ ev2, ret)
    else some (p, s, data, [], PResult.yes)

/-- A primitive read request a concrete parser can issue from
`process_state`. -/
inductive Req where
  | u8
  | u16
  | u32
  | u64
  | bytes (len : Nat)
deriving DecidableEq, Repr

/-- Dispatch a request to the matching read primitive. -/
def readReq : Req → RS → Buffer → RS × Buffer × List Value × ReadStatus
  | Req.u8, s, d => read_8 s d
  | Req.u16, s, d => read_16 s d
  | Req.u32, s, d => read_32 s d
  | Req.u64, s, d => read_64 s d
  | Req.bytes len, s, d => read_bytes s d len

/-- process_state of the straight-line program processor: issue the next
read request of the program (returning `proceed::yes` whether the read
completed or armed a prestate), and return `proceed::no` once the
program is exhausted. -/
def progStep : List Req → RS → Buffer → List Req × RS × Buffer × List Value × PResult
  | [], s, d => ([], s, d, [], PResult.no)
  | r :: rest, s, d =>
    match readReq r s d with
    | (s2, d2, ev, _) => (rest, s2, d2, ev, PResult.yes)

/-- The straight-line program processor: its private state is the list of
remaining read requests; it never declares a non-consuming state. -/
def progProc : Processor (List Req) :=
  { step := progStep, non_consuming := fun _ => false }

/-- The drive loop `process` instantiated at the program processor,
written as a structurally terminating function (one request is retired
per iteration).  `processProg_eq_process` below shows it agrees with the
generic fuelled loop. -/
def processProg (prog : List Req) (s : RS) (data : Buffer) :
    Option (List Req × RS × Buffer × List Value × PResult) :=
  if data = [] then some (prog, s, data, [], PResult.yes)
  else
    match process_buffer s data with
    | none => none
    | some (s1, d1, ev1) =>
      if s1.prestate ≠ Prestate.NONE then
        if d1 = [] then some (prog, s1, d1, ev1, PResult.yes) else none
      else
        match prog with
        | [] => some ([], s1, d1, ev1, PResult.no)
        | r :: rest =>
          match readReq r s1 d1 with
          | (s2, d2, ev2, _) =>
            match processProg rest s2 d2 with
            | none => none
            | some (p3, s3, d3, ev3, res) =>
              some (p3, s3, d3, ev1 ++ ev2 ++ ev3, res)

/-- What the callback returns to `input_stream::consume`:
`continue_consuming`, `stop_consuming{tail}`, or `skip_bytes{n}`. -/
inductive Outcome where
  | continueConsuming
  | stopConsuming (tail : Buffer)
  | skipStream (n : Nat)
deriving DecidableEq, Repr

/-- The full consumer state as seen by the stream callback:
`_stream_position.position`, `_remain`, the read-machine state and the
processor-private state `inner`.  Three ghost counters instrument the
quantities named by the spec: `verifyCount` counts verify_end_state
invocations, `delivered` counts the bytes consumed by `process` (bytes
delivered to the StateProcessor), `skipped` counts the bytes skipped via
skip_bytes verdicts (including a final skip clipped to the window). -/
structure CState (σ : Type) where
  inner : σ
  rs : RS := {}
  position : Nat := 0
  remain : Nat := 0
  verifyCount : Nat := 0
  delivered : Nat := 0
  skipped : Nat := 0
deriving DecidableEq, Repr

/-- The type of the inner `process` call as the callback sees it: from
the processor-private state, the read machine and a buffer to their
updates, the published values and a verdict (`none` = abort). -/
abbrev ProcFun (σ : Type) :=
  σ → RS → Buffer → Option (σ × RS × Buffer × List Value × PResult)

/-- operator(): the callback invoked by `input_stream::consume` with each
buffer.  Mirrors the three branches of the source: window clipping when
`data.size() >= _remain`, end-of-file on an empty buffer, and the
regular branch with the `proceed` / `skip_bytes` visitation.  `none`
models the `assert(data.size() == 0)` in the skip branch (and an
aborting inner `process`). -/
def callback {σ : Type} (proc : ProcFun σ) (s : CState σ) (data : Buffer) :
    Option (CState σ × List Value × Outcome) :=
  if s.remain ≤ data.length then
    match proc s.inner s.rs (data.take s.remain) with
    | none => none
    | some (inner2, rs2, seg2, evs, ret) =>
      if s.remain - (s.remain - seg2.length) = 0 ∧ presEqYes ret = true then
        some ({ s with
            inner := inner2, rs := rs2,
            remain := s.remain - (s.remain - seg2.length),
            position := s.position + (s.remain - seg2.length),
            delivered := s.delivered + (s.remain - seg2.length),
            verifyCount := s.verifyCount + 1 }, evs,
          Outcome.stopConsuming (data.drop (s.remain - seg2.length)))
      else
        some ({ s with
            inner := inner2, rs := rs2,
            remain := s.remain - (s.remain - seg2.length),
            position := s.position + (s.remain - seg2.length),
            delivered := s.delivered + (s.remain - seg2.length) }, evs,
          Outcome.stopConsuming (data.drop (s.remain - seg2.length)))
  else if data = [] then
    some ({ s with verifyCount := s.verifyCount + 1 }, [],
      Outcome.stopConsuming [])
  else
    match proc s.inner s.rs data with
    | none => none
    | some (inner2, rs2, d2, evs, ret) =>
      match ret with
      | PResult.yes =>
        some ({ s with
            inner := inner2, rs := rs2,
            remain := s.remain - (data.length - d2.length),
            position := s.position + data.length - d2.length,
            delivered := s.delivered + (data.length - d2.length) }, evs,
          Outcome.continueConsuming)
      | PResult.no =>
        some ({ s with
            inner := inner2, rs := rs2,
            remain := s.remain - (data.length - d2.length),
            position := s.position + data.length - d2.length,
            delivered := s.delivered + (data.length - d2.length) }, evs,
          Outcome.stopConsuming d2)
      | PResult.skip n =>
        if d2 = [] then
          if s.remain - data.length ≤ n then
            some ({ s with
                inner := inner2, rs := rs2,
                position := s.position + data.length + (s.remain - data.length),
                remain := 0,
                delivered := s.delivered + data.length,
                skipped := s.skipped + (s.remain - data.length),
                verifyCount := s.verifyCount + 1 }, evs,
              Outcome.stopConsuming [])
          else
            some ({ s with
                inner := inner2, rs := rs2,
                position := s.position + data.length + n,
                remain := (s.remain - data.length) - n,
                delivered := s.delivered + data.length,
                skipped := s.skipped + n }, evs,
              Outcome.skipStream n)
        else none

/-- A run of the `input_stream::consume` protocol: buffers are delivered
in order to the callback; delivery ceases once the callback returns a
`stop_consuming` verdict (the boolean records whether the run stopped).
A `skip_bytes` reply makes the stream seek and keep delivering. -/
def callbackRun {σ : Type} (proc : ProcFun σ) :
    CState σ → List Buffer → Option (CState σ × List Value × Bool)
  | s, [] => some (s, [], false)
  | s, d :: ds =>
    match callback proc s d with
    | none => none
    | some (s2, ev, Outcome.continueConsuming) =>
      match callbackRun proc s2 ds with
      | none => none
      | some (s3, ev2, st) => some (s3, ev ++ ev2, st)
    | some (s2, ev, Outcome.skipStream _) =>
      match callbackRun proc s2 ds with
      | none => none
      | some (s3, ev2, st) => some (s3, ev ++ ev2, st)
    | some (s2, ev, Outcome.stopConsuming _) => some (s2, ev, true)

/-- fast_forward_to(begin, end): assert `begin >= position` (else abort),
set `position := begin`, assert `end >= position`, set
`remain := end - begin`, disarm the prestate, and return the number of
bytes the underlying stream is asked to skip. -/
def fast_forward_to {σ : Type} (s : CState σ) (b e : Nat) :
    Option (CState σ × Nat) :=
  if s.position ≤ b then
    let n := b - s.position
    if b ≤ e then
      some ({ s with
          position := b, remain := e - b,
          rs := { s.rs with prestate := Prestate.NONE } }, n)
    else none
  else none

/-- skip_to(begin): fast_forward_to(begin, position + remain). -/
def skip_to {σ : Type} (s : CState σ) (b : Nat) : Option (CState σ × Nat) :=
  fast_forward_to s b (s.position + s.remain)

/-! Helper lemmas about buffers and big-endian coding. -/

theorem take_append_exact {α : Type} (xs ys : List α) (n : Nat)
    (h : xs.length = n) : (xs ++ ys).take n = xs := by
  subst h; exact List.take_left xs ys

theorem drop_append_exact {α : Type} (xs ys : List α) (n : Nat)
    (h : xs.length = n) : (xs ++ ys).drop n = ys := by
  subst h; exact List.drop_left xs ys

theorem take_append_le {α : Type} (xs ys : List α) (n : Nat)
    (h : n ≤ xs.length) : (xs ++ ys).take n = xs.take n := by
  rw [List.take_append_eq_append_take, Nat.sub_eq_zero_of_le h]
  simp

theorem drop_append_le {α : Type} (xs ys : List α) (n : Nat)
    (h : n ≤ xs.length) : (xs ++ ys).drop n = xs.drop n ++ ys := by
  rw [List.drop_append_eq_append_drop, Nat.sub_eq_zero_of_le h]
  simp

theorem take_append_ge {α : Type} (xs ys : List α) (n : Nat)
    (h : xs.length ≤ n) : (xs ++ ys).take n = xs ++ ys.take (n - xs.length) := by
  rw [List.take_append_eq_append_take, List.take_of_length_le h]

theorem drop_append_ge {α : Type} (xs ys : List α) (n : Nat)
    (h : xs.length ≤ n) : (xs ++ ys).drop n = ys.drop (n - xs.length) := by
  rw [List.drop_append_eq_append_drop, List.drop_eq_nil_of_le h]
  simp

theorem read_be_append_single (xs : Buffer) (b : Byte) :
    read_be (xs ++ [b]) = 256 * read_be xs + b := by
  simp [read_be, List.foldl_append]

theorem encode_be_length (w v : Nat) : (encode_be w v).length = w := by
  induction w generalizing v with
  | zero => simp [encode_be]
  | succ w ih => simp [encode_be, ih]

theorem read_be_encode_be (w v : Nat) :
    read_be (encode_be w v) = v % 256 ^ w := by
  induction w generalizing v with
  | zero => simp [encode_be, read_be, Nat.mod_one]
  | succ w ih =>
    rw [encode_be, read_be_append_single, ih, Nat.pow_succ', Nat.mod_mul]
    omega

theorem read_be_encode_of_lt (w v : Nat) (h : v < 256 ^ w) :
    read_be (encode_be w v) = v := by
  rw [read_be_encode_be, Nat.mod_eq_of_lt h]

/-- C4: big-endian round trip.  For each width N in {8, 16, 32, 64} and
every value v of that width, delivering the big-endian encoding of v
publishes exactly v to the corresponding slot: on the fast path the
whole encoding heads the buffer and `read_N` stores v and returns
`ready`; on the slow path any proper prefix of k bytes arms the
prestate (`waiting`) and `do_process_buffer` on the remaining bytes
reassembles the encoding in the scratch area, stores v and disarms. -/
theorem C4_big_endian_round_trip :
    (∀ (s : RS) (v : Nat) (rest : Buffer), v < 256 →
      read_8 s (encode_be 1 v ++ rest) =
        ({ s with u8 := v }, rest, [Value.vU8 v], ReadStatus.ready)) ∧
    (∀ (s : RS) (v : Nat) (rest : Buffer), v < 256 ^ 2 →
      read_16 s (encode_be 2 v ++ rest) =
        ({ s with u16 := v }, rest, [Value.vU16 v], ReadStatus.ready)) ∧
    (∀ (s : RS) (v : Nat) (rest : Buffer), v < 256 ^ 4 →
      read_32 s (encode_be 4 v ++ rest) =
        ({ s with u32 := v }, rest, [Value.vU32 v], ReadStatus.ready)) ∧
    (∀ (s : RS) (v : Nat) (rest : Buffer), v < 256 ^ 8 →
      read_64 s (encode_be 8 v ++ rest) =
        ({ s with u64 := v }, rest, [Value.vU64 v], ReadStatus.ready)) ∧
    (∀ (s : RS) (v : Nat), v < 256 →
      ∃ s1, read_8 s [] = (s1, [], [], ReadStatus.waiting) ∧
        ∃ s2, do_process_buffer s1 (encode_be 1 v) =
            some (s2, [], [Value.vU8 v]) ∧
          s2.u8 = v ∧ s2.prestate = Prestate.NONE) ∧
    (∀ (s : RS) (v k : Nat), v < 256 ^ 2 → k < 2 →
      ∃ s1, read_16 s ((encode_be 2 v).take k) = (s1, [], [], ReadStatus.waiting) ∧
        ∃ s2, do_process_buffer s1 ((encode_be 2 v).drop k) =
            some (s2, [], [Value.vU16 v]) ∧
          s2.u16 = v ∧ s2.prestate = Prestate.NONE) ∧
    (∀ (s : RS) (v k : Nat), v < 256 ^ 4 → k < 4 →
      ∃ s1, read_32 s ((encode_be 4 v).take k) = (s1, [], [], ReadStatus.waiting) ∧
        ∃ s2, do_process_buffer s1 ((encode_be 4 v).drop k) =
            some (s2, [], [Value.vU32 v]) ∧
          s2.u32 = v ∧ s2.prestate = Prestate.NONE) ∧
    (∀ (s : RS) (v k : Nat), v < 256 ^ 8 → k < 8 →
      ∃ s1, read_64 s ((encode_be 8 v).take k) = (s1, [], [], ReadStatus.waiting) ∧
        ∃ s2, do_process_buffer s1 ((encode_be 8 v).drop k) =
            some (s2, [], [Value.vU64 v]) ∧
          s2.u64 = v ∧ s2.prestate = Prestate.NONE) := by
  refine ⟨?_, ?_, ?_, ?_, ?_, ?_, ?_, ?_⟩
  · intro s v rest hv
    have hl := encode_be_length 1 v
    have hval : read_be (encode_be 1 v) = v := read_be_encode_of_lt 1 v (by simpa using hv)
    simp [read_8, List.length_append, hl,
      take_append_exact _ _ 1 hl, drop_append_exact _ _ 1 hl, hval]
  · intro s v rest hv
    have hl := encode_be_length 2 v
    have hval : read_be (encode_be 2 v) = v := read_be_encode_of_lt 2 v hv
    simp [read_16, List.length_append, hl,
      take_append_exact _ _ 2 hl, drop_append_exact _ _ 2 hl, hval]
  · intro s v rest hv
    have hl := encode_be_length 4 v
    have hval : read_be (encode_be 4 v) = v := read_be_encode_of_lt 4 v hv
    simp [read_32, List.length_append, hl,
      take_append_exact _ _ 4 hl, drop_append_exact _ _ 4 hl, hval]
  · intro s v rest hv
    have hl := encode_be_length 8 v
    have hval : read_be (encode_be 8 v) = v := read_be_encode_of_lt 8 v hv
    simp [read_64, List.length_append, hl,
      take_append_exact _ _ 8 hl, drop_append_exact _ _ 8 hl, hval]
  · intro s v hv
    have hval : read_be (encode_be 1 v) = v := read_be_encode_of_lt 1 v (by simpa using hv)
    have hl := encode_be_length 1 v
    refine ⟨{ s with pos := 0, readInt := [], prestate := Prestate.READING_U8 },
      by simp [read_8], ?_⟩
    have ht1 : (encode_be 1 v).take 1 = encode_be 1 v :=
      List.take_of_length_le (le_of_eq hl)
    have htl : (encode_be 1 v).tail = [] :=
      List.eq_nil_of_length_eq_zero (by simp [hl])
    simp only [do_process_buffer, intWidth]
    simp [hl, storeInt, hval, ht1, htl]
  · intro s v k hv hk
    have hl := encode_be_length 2 v
    have hval : read_be (encode_be 2 v) = v := read_be_encode_of_lt 2 v hv
    have hkl : ((encode_be 2 v).take k).length = k := by
      rw [List.length_take, hl]; omega
    have hcond : ¬ (2 ≤ ((encode_be 2 v).take k).length) := by omega
    refine ⟨_, by rw [read_16, if_neg hcond], ?_⟩
    have hdl : ((encode_be 2 v).drop k).length = 2 - k := by
      rw [List.length_drop, hl]
    have hmin : min (2 - k) (2 - k) = 2 - k := Nat.min_self _
    have htd : (encode_be 2 v).take k ++ ((encode_be 2 v).drop k).take (2 - k)
        = encode_be 2 v := by
      rw [List.take_of_length_le (le_of_eq hdl), List.take_append_drop]
    have hdd : ((encode_be 2 v).drop k).drop (2 - k) = [] := by
      apply List.drop_eq_nil_of_le; omega
    have hk2 : k + (2 - k) = 2 := by omega
    simp only [do_process_buffer, intWidth]
    simp [hkl, hk, hdl, hmin, htd, hdd, hk2, storeInt, hval]
  · intro s v k hv hk
    have hl := encode_be_length 4 v
    have hval : read_be (encode_be 4 v) = v := read_be_encode_of_lt 4 v hv
    have hkl : ((encode_be 4 v).take k).length = k := by
      rw [List.length_take, hl]; omega
    have hcond : ¬ (4 ≤ ((encode_be 4 v).take k).length) := by omega
    refine ⟨_, by rw [read_32, if_neg hcond], ?_⟩
    have hdl : ((encode_be 4 v).drop k).length = 4 - k := by
      rw [List.length_drop, hl]
    have hmin : min (4 - k) (4 - k) = 4 - k := Nat.min_self _
    have htd : (encode_be 4 v).take k ++ ((encode_be 4 v).drop k).take (4 - k)
        = encode_be 4 v := by
      rw [List.take_of_length_le (le_of_eq hdl), List.take_append_drop]
    have hdd : ((encode_be 4 v).drop k).drop (4 - k) = [] := by
      apply List.drop_eq_nil_of_le; omega
    have hk2 : k + (4 - k) = 4 := by omega
    simp only [do_process_buffer, intWidth]
    simp [hkl, hk, hdl, hmin, htd, hdd, hk2, storeInt, hval]
  · intro s v k hv hk
    have hl := encode_be_length 8 v
    have hval : read_be (encode_be 8 v) = v := read_be_encode_of_lt 8 v hv
    have hkl : ((encode_be 8 v).take k).length = k := by
      rw [List.length_take, hl]; omega
    have hcond : ¬ (8 ≤ ((encode_be 8 v).take k).length) := by omega
    refine ⟨_, by rw [read_64, if_neg hcond], ?_⟩
    have hdl : ((encode_be 8 v).drop k).length = 8 - k := by
      rw [List.length_drop, hl]
    have hmin : min (8 - k) (8 - k) = 8 - k := Nat.min_self _
    have htd : (encode_be 8 v).take k ++ ((encode_be 8 v).drop k).take (8 - k)
        = encode_be 8 v := by
      rw [List.take_of_length_le (le_of_eq hdl), List.take_append_drop]
    have hdd : ((encode_be 8 v).drop k).drop (8 - k) = [] := by
      apply List.drop_eq_nil_of_le; omega
    have hk2 : k + (8 - k) = 8 := by omega
    simp only [do_process_buffer, intWidth]
    simp [hkl, hk, hdl, hmin, htd, hdd, hk2, storeInt, hval]

/-- Witness for C4 at concrete boundary-style values. -/
theorem C4_witness :
    read_16 {} (encode_be 2 43981 ++ [7]) =
      ({ u16 := 43981 }, [7], [Value.vU16 43981], ReadStatus.ready) ∧
    (∃ s1, read_32 {} ((encode_be 4 4294967295).take 3) = (s1, [], [], ReadStatus.waiting) ∧
      ∃ s2, do_process_buffer s1 ((encode_be 4 4294967295).drop 3) =
          some (s2, [], [Value.vU32 4294967295]) ∧
        s2.u32 = 4294967295 ∧ s2.prestate = Prestate.NONE) :=
  ⟨C4_big_endian_round_trip.2.1 {} 43981 [7] (by norm_num),
   C4_big_endian_round_trip.2.2.2.2.2.2.1 {} 4294967295 3 (by norm_num) (by norm_num)⟩

/-- C8: fast_forward_to postcondition.  With `begin >= position` and
`end >= begin` the call sets position to begin, remain to end - begin,
disarms the prestate and asks the stream to skip begin - old_position
bytes; with `begin < position` the precondition assert fires and the
call aborts. -/
theorem C8_fast_forward_to {σ : Type} (s : CState σ) (b e : Nat) :
    (s.position ≤ b → b ≤ e →
      fast_forward_to s b e =
        some ({ s with
            position := b, remain := e - b,
            rs := { s.rs with prestate := Prestate.NONE } }, b - s.position)) ∧
    (b < s.position → fast_forward_to s b e = none) := by
  constructor
  · intro h1 h2
    rw [fast_forward_to, if_pos h1, if_pos h2]
  · intro h
    rw [fast_forward_to, if_neg (by omega)]

/-- Witness for C8 at a concrete state. -/
theorem C8_witness :
    fast_forward_to (σ := Unit) { inner := (), position := 3, remain := 5 } 10 14 =
      some ({ inner := (), position := 10, remain := 4 }, 7) ∧
    fast_forward_to (σ := Unit) { inner := (), position := 3, remain := 5 } 2 14 =
      none :=
  ⟨(C8_fast_forward_to { inner := (), position := 3, remain := 5 } 10 14).1
      (by norm_num) (by norm_num),
   (C8_fast_forward_to { inner := (), position := 3, remain := 5 } 2 14).2
      (by norm_num)⟩

/-- C9: skip_to equivalence.  skip_to(begin) is literally
fast_forward_to(begin, position + remain), and whenever it succeeds the
window end is preserved: position + remain is unchanged. -/
theorem C9_skip_to {σ : Type} (s : CState σ) (b : Nat) :
    skip_to s b = fast_forward_to s b (s.position + s.remain) ∧
    (∀ (s2 : CState σ) (n : Nat), skip_to s b = some (s2, n) →
      s2.position + s2.remain = s.position + s.remain) := by
  constructor
  · rfl
  · intro s2 n h
    rw [skip_to, fast_forward_to] at h
    by_cases h1 : s.position ≤ b
    · rw [if_pos h1] at h
      by_cases h2 : b ≤ s.position + s.remain
      · rw [if_pos h2] at h
        cases h
        simp
        omega
      · rw [if_neg h2] at h
        cases h
    · rw [if_neg h1] at h
      cases h

/-- Witness for C9 at a concrete state. -/
theorem C9_witness :
    skip_to (σ := Unit) { inner := (), position := 3, remain := 7 } 6 =
      fast_forward_to (σ := Unit) { inner := (), position := 3, remain := 7 } 6 10 ∧
    ({ inner := (), position := 6, remain := 4 } : CState Unit).position +
        ({ inner := (), position := 6, remain := 4 } : CState Unit).remain = 3 + 7 :=
  ⟨(C9_skip_to { inner := (), position := 3, remain := 7 } 6).1,
   (C9_skip_to { inner := (), position := 3, remain := 7 } 6).2
      { inner := (), position := 6, remain := 4 } 3 (by rfl)⟩

/-! Per-callback and per-run bookkeeping lemmas. -/

/-- The inner `process` can only trim its buffer, never grow it
(`temporary_buffer` offers only trim_front and trim). -/
def shrinks {σ : Type} (proc : ProcFun σ) : Prop :=
  ∀ (x : σ) (rs : RS) (b : Buffer) (out : σ × RS × Buffer × List Value × PResult),
    proc x rs b = some out → out.2.2.1.length ≤ b.length

theorem callback_verify {σ : Type} (proc : ProcFun σ) (s : CState σ) (d : Buffer)
    (s2 : CState σ) (ev : List Value) (o : Outcome)
    (h : callback proc s d = some (s2, ev, o)) :
    s2.verifyCount = s.verifyCount ∨
      (s2.verifyCount = s.verifyCount + 1 ∧ ∃ t, o = Outcome.stopConsuming t) := by
  rw [callback] at h
  split at h
  · split at h
    · exact Option.noConfusion h
    · split at h
      · cases h; right; exact ⟨rfl, _, rfl⟩
      · cases h; left; rfl
  · split at h
    · cases h; right; exact ⟨rfl, _, rfl⟩
    · split at h
      · exact Option.noConfusion h
      · split at h
        · cases h; left; rfl
        · cases h; left; rfl
        · split at h
          · split at h
            · cases h; right; exact ⟨rfl, _, rfl⟩
            · cases h; left; rfl
          · exact Option.noConfusion h

theorem callback_accounting {σ : Type} (proc : ProcFun σ) (hsh : shrinks proc)
    (s : CState σ) (d : Buffer) (s2 : CState σ) (ev : List Value) (o : Outcome)
    (h : callback proc s d = some (s2, ev, o)) :
    s2.position + s.delivered + s.skipped = s.position + s2.delivered + s2.skipped ∧
    s2.delivered + s2.skipped + s2.remain = s.delivered + s.skipped + s.remain := by
  rw [callback] at h
  split at h
  · rename_i hclip
    split at h
    · exact Option.noConfusion h
    · rename_i inner2 rs2 seg2 evs ret hp
      have hs : seg2.length ≤ s.remain := by
        have h5 := hsh _ _ _ _ hp
        simp only [List.length_take] at h5
        omega
      split at h
      · cases h; exact ⟨by simp; omega, by simp; omega⟩
      · cases h; exact ⟨by simp; omega, by simp; omega⟩
  · rename_i hclip
    split at h
    · cases h; exact ⟨by simp, by simp⟩
    · rename_i hne
      split at h
      · exact Option.noConfusion h
      · rename_i inner2 rs2 d2 evs ret hp
        have hlt : d.length < s.remain := by omega
        have hs : d2.length ≤ d.length := by
          have h5 := hsh _ _ _ _ hp
          simpa using h5
        split at h
        · cases h; exact ⟨by simp; omega, by simp; omega⟩
        · cases h; exact ⟨by simp; omega, by simp; omega⟩
        · split at h
          · rename_i hd2
            split at h
            · cases h; exact ⟨by simp; omega, by simp; omega⟩
            · rename_i hskip
              cases h; exact ⟨by simp; omega, by simp; omega⟩
          · exact Option.noConfusion h

theorem callbackRun_verify {σ : Type} (proc : ProcFun σ) :
    ∀ (ds : List Buffer) (s s2 : CState σ) (ev : List Value) (st : Bool),
      callbackRun proc s ds = some (s2, ev, st) →
      s2.verifyCount ≤ s.verifyCount + 1 ∧
      (st = false → s2.verifyCount = s.verifyCount) := by
  intro ds
  induction ds with
  | nil =>
    intro s s2 ev st h
    rw [callbackRun] at h
    cases h
    exact ⟨Nat.le_succ _, fun _ => rfl⟩
  | cons d ds ih =>
    intro s s2 ev st h
    rw [callbackRun] at h
    split at h
    · exact Option.noConfusion h
    · rename_i smid ev1 hcb
      split at h
      · exact Option.noConfusion h
      · rename_i s3 ev2 st2 hrun
        cases h
        rcases callback_verify proc s d smid ev1 Outcome.continueConsuming hcb with
          hv | ⟨_, _, ht⟩
        · obtain ⟨ha, hb⟩ := ih smid s2 ev2 st hrun
          exact ⟨by omega, fun hst => by rw [hb hst, hv]⟩
        · exact Outcome.noConfusion ht
    · rename_i smid ev1 n hcb
      split at h
      · exact Option.noConfusion h
      · rename_i s3 ev2 st2 hrun
        cases h
        rcases callback_verify proc s d smid ev1 (Outcome.skipStream n) hcb with
          hv | ⟨_, _, ht⟩
        · obtain ⟨ha, hb⟩ := ih smid s2 ev2 st hrun
          exact ⟨by omega, fun hst => by rw [hb hst, hv]⟩
        · exact Outcome.noConfusion ht
    · rename_i smid ev1 t hcb
      cases h
      rcases callback_verify proc s d s2 ev (Outcome.stopConsuming t) hcb with
        hv | ⟨hv, _⟩
      · exact ⟨by omega, fun _ => hv⟩
      · exact ⟨by omega, fun hst => by cases hst⟩

theorem callbackRun_accounting {σ : Type} (proc : ProcFun σ) (hsh : shrinks proc) :
    ∀ (ds : List Buffer) (s s2 : CState σ) (ev : List Value) (st : Bool),
      callbackRun proc s ds = some (s2, ev, st) →
      s2.position + s.delivered + s.skipped
          = s.position + s2.delivered + s2.skipped ∧
      s2.delivered + s2.skipped + s2.remain
          = s.delivered + s.skipped + s.remain := by
  intro ds
  induction ds with
  | nil =>
    intro s s2 ev st h
    rw [callbackRun] at h
    cases h
    exact ⟨rfl, rfl⟩
  | cons d ds ih =>
    intro s s2 ev st h
    rw [callbackRun] at h
    split at h
    · exact Option.noConfusion h
    · rename_i smid ev1 hcb
      split at h
      · exact Option.noConfusion h
      · rename_i s3 ev2 st2 hrun
        cases h
        have h1 := callback_accounting proc hsh s d smid ev1 Outcome.continueConsuming hcb
        have h2 := ih smid s2 ev2 st hrun
        omega
    · rename_i smid ev1 n hcb
      split at h
      · exact Option.noConfusion h
      · rename_i s3 ev2 st2 hrun
        cases h
        have h1 := callback_accounting proc hsh s d smid ev1 (Outcome.skipStream n) hcb
        have h2 := ih smid s2 ev2 st hrun
        omega
    · rename_i smid ev1 t hcb
      cases h
      exact callback_accounting proc hsh s d s2 ev (Outcome.stopConsuming t) hcb

/-- C2: position accounting.  Over any protocol run of callback
invocations (for any processor, whose inner `process` can only trim its
buffers), the net increase of the stream position equals the bytes
delivered to the StateProcessor plus the bytes skipped via skip_bytes
verdicts, stated additively:
position2 + (delivered + skipped before) = position + (delivered +
skipped after). -/
theorem C2_position_accounting {σ : Type} (proc : ProcFun σ) (hsh : shrinks proc)
    (ds : List Buffer) (s s2 : CState σ) (ev : List Value) (st : Bool)
    (h : callbackRun proc s ds = some (s2, ev, st)) :
    s2.position + (s.delivered + s.skipped)
      = s.position + (s2.delivered + s2.skipped) := by
  have := callbackRun_accounting proc hsh ds s s2 ev st h
  omega

/-- Witness for C2: a processor that consumes everything and proceeds,
run on one 3-byte buffer inside a 5-byte window. -/
theorem C2_witness :
    ({ inner := (), rs := {}, position := 3, remain := 2, verifyCount := 0,
        delivered := 3, skipped := 0 } : CState Unit).position + (0 + 0)
      = ({ inner := (), remain := 5 } : CState Unit).position +
        (({ inner := (), rs := {}, position := 3, remain := 2, verifyCount := 0,
            delivered := 3, skipped := 0 } : CState Unit).delivered +
         ({ inner := (), rs := {}, position := 3, remain := 2, verifyCount := 0,
            delivered := 3, skipped := 0 } : CState Unit).skipped) :=
  C2_position_accounting (σ := Unit)
    (fun x rs b => some (x, rs, [], [], PResult.yes))
    (fun x rs b out h => by cases h; simp)
    [[9, 9, 9]] { inner := (), remain := 5 }
    { inner := (), rs := {}, position := 3, remain := 2, verifyCount := 0,
      delivered := 3, skipped := 0 } [] false (by decide)

/-- C7: verify_end_state is invoked at most once over a protocol run (a
lifetime of callback invocations as made by input_stream::consume:
delivery ceases once a callback returns stop_consuming, and every
invocation of verify_end_state happens in a callback that returns
stop_consuming). -/
theorem C7_verify_at_most_once {σ : Type} (proc : ProcFun σ)
    (ds : List Buffer) (s s2 : CState σ) (ev : List Value) (st : Bool)
    (h0 : s.verifyCount = 0)
    (h : callbackRun proc s ds = some (s2, ev, st)) :
    s2.verifyCount ≤ 1 := by
  have := callbackRun_verify proc ds s s2 ev st h
  omega

/-- Witness for C7: a run that ends at end-of-file (empty buffer), where
verify_end_state fires exactly once. -/
theorem C7_witness :
    ({ inner := (), rs := {}, position := 0, remain := 5, verifyCount := 1,
        delivered := 0, skipped := 0 } : CState Unit).verifyCount ≤ 1 :=
  C7_verify_at_most_once (σ := Unit)
    (fun x rs b => some (x, rs, b, [], PResult.yes))
    [[]] { inner := (), remain := 5 }
    { inner := (), rs := {}, position := 0, remain := 5, verifyCount := 1,
      delivered := 0, skipped := 0 } [] true (by decide) (by decide)

/-- C3 counterexample: the window can be exhausted without
verify_end_state ever being called.  A processor that drains the buffer
and returns proceed::no (process yields a non-yes verdict with all of
the segment consumed, exactly what a state machine pausing at its final
state does): with maxlen = 1 and one 1-byte buffer, the clipped branch
debits remain to 0 but skips verify_end_state because the verdict is
not proceed::yes.  Final state: delivered + skipped = 1 = maxlen,
remain = 0, verifyCount = 0, refuting that equality implies
verify_end_state was called exactly once. -/
theorem C3_counterexample :
    (callbackRun (σ := Unit) (fun x rs b => some (x, rs, [], [], PResult.no))
        { inner := (), remain := 1 } [[0]]).map
        (fun out => (out.1.delivered + out.1.skipped, out.1.remain,
          out.1.verifyCount))
      = some (1, 0, 0) := by decide

/-- C3 (amended): for a consumer created with window maxlen,
bytes_delivered + bytes_skipped never exceeds maxlen over any protocol
run, and whenever equality holds (remain = 0), verify_end_state has
been called at most once (not necessarily exactly once: a non-yes final
verdict reaches equality without the call). -/
theorem C3_window_bound_amended {σ : Type} (proc : ProcFun σ) (hsh : shrinks proc)
    (ds : List Buffer) (maxlen : Nat) (inner0 : σ) (rs0 : RS) (pos0 : Nat)
    (s2 : CState σ) (ev : List Value) (st : Bool)
    (h : callbackRun proc
      { inner := inner0, rs := rs0, position := pos0, remain := maxlen } ds
        = some (s2, ev, st)) :
    s2.delivered + s2.skipped ≤ maxlen ∧
    (s2.delivered + s2.skipped = maxlen → s2.verifyCount ≤ 1) := by
  have h1 := callbackRun_accounting proc hsh ds _ s2 ev st h
  have h2 := callbackRun_verify proc ds _ s2 ev st h
  simp only at h1 h2
  exact ⟨by omega, fun _ => by omega⟩

/-- Witness for C3 (amended), on the counterexample run itself: the
bound holds and the verify count is at most one. -/
theorem C3_amended_witness :
    ({ inner := (), rs := {}, position := 1, remain := 0, verifyCount := 0,
        delivered := 1, skipped := 0 } : CState Unit).delivered +
      ({ inner := (), rs := {}, position := 1, remain := 0, verifyCount := 0,
          delivered := 1, skipped := 0 } : CState Unit).skipped ≤ 1 ∧
    (({ inner := (), rs := {}, position := 1, remain := 0, verifyCount := 0,
        delivered := 1, skipped := 0 } : CState Unit).delivered +
      ({ inner := (), rs := {}, position := 1, remain := 0, verifyCount := 0,
          delivered := 1, skipped := 0 } : CState Unit).skipped = 1 →
      ({ inner := (), rs := {}, position := 1, remain := 0, verifyCount := 0,
          delivered := 1, skipped := 0 } : CState Unit).verifyCount ≤ 1) :=
  C3_window_bound_amended (σ := Unit)
    (fun x rs b => some (x, rs, [], [], PResult.no))
    (fun x rs b out h => by cases h; simp)
    [[0]] 1 () {} 0
    { inner := (), rs := {}, position := 1, remain := 0, verifyCount := 0,
      delivered := 1, skipped := 0 } [] true (by decide)

/-- C5: skip handling in the partial-buffer branch.  When a non-empty
buffer smaller than the window arrives and process returns skip_bytes n
having drained the buffer, remain is debited by the delivered size; if
n covers the rest of the window, position advances by the debited
remain, remain becomes 0, verify_end_state runs and stop_consuming with
an empty tail is returned; otherwise position advances by n, remain is
debited by n and skip_bytes n goes to the stream.  If the buffer was
not drained, the assert fires (the callback aborts). -/
theorem C5_skip_partial_branch {σ : Type} (proc : ProcFun σ) (s : CState σ)
    (data : Buffer) (inner2 : σ) (rs2 : RS) (l : Buffer) (evs : List Value)
    (n : Nat)
    (hne : data ≠ []) (hlt : data.length < s.remain)
    (hp : proc s.inner s.rs data = some (inner2, rs2, l, evs, PResult.skip n)) :
    (l = [] →
      (s.remain - data.length ≤ n →
        callback proc s data =
          some ({ s with
              inner := inner2, rs := rs2,
              position := s.position + data.length + (s.remain - data.length),
              remain := 0,
              delivered := s.delivered + data.length,
              skipped := s.skipped + (s.remain - data.length),
              verifyCount := s.verifyCount + 1 }, evs,
            Outcome.stopConsuming [])) ∧
      (n < s.remain - data.length →
        callback proc s data =
          some ({ s with
              inner := inner2, rs := rs2,
              position := s.position + data.length + n,
              remain := (s.remain - data.length) - n,
              delivered := s.delivered + data.length,
              skipped := s.skipped + n }, evs,
            Outcome.skipStream n))) ∧
    (l ≠ [] → callback proc s data = none) := by
  have hclip : ¬ (s.remain ≤ data.length) := by omega
  constructor
  · intro hl
    subst hl
    constructor
    · intro hbig
      rw [callback, if_neg hclip, if_neg hne, hp]
      simp [hbig]
    · intro hsmall
      have hno : ¬ (s.remain - data.length ≤ n) := by omega
      rw [callback, if_neg hclip, if_neg hne, hp]
      simp [hno]
  · intro hl
    rw [callback, if_neg hclip, if_neg hne, hp]
    simp [hl]

/-- Witness for C5: both skip sub-branches at concrete states. -/
theorem C5_witness :
    callback (σ := Unit) (fun x rs b => some (x, rs, [], [], PResult.skip 2))
        { inner := (), remain := 10 } [5] =
      some ({ inner := (), rs := {}, position := 3, remain := 7,
              verifyCount := 0, delivered := 1, skipped := 2 }, [],
        Outcome.skipStream 2) ∧
    callback (σ := Unit) (fun x rs b => some (x, rs, [], [], PResult.skip 50))
        { inner := (), remain := 10 } [5] =
      some ({ inner := (), rs := {}, position := 10, remain := 0,
              verifyCount := 1, delivered := 1, skipped := 9 }, [],
        Outcome.stopConsuming []) :=
  ⟨((C5_skip_partial_branch (σ := Unit)
        (fun x rs b => some (x, rs, [], [], PResult.skip 2))
        { inner := (), remain := 10 } [5] () {} [] [] 2
        (by decide) (by decide) (by decide)).1 rfl).2 (by decide),
   ((C5_skip_partial_branch (σ := Unit)
        (fun x rs b => some (x, rs, [], [], PResult.skip 50))
        { inner := (), remain := 10 } [5] () {} [] [] 50
        (by decide) (by decide) (by decide)).1 rfl).1 (by decide)⟩

/-- C10: in the clipped branch (data.size >= remain), any verdict other
than proceed::yes — in particular a skip_bytes — results in
stop_consuming with the unconsumed tail; no skip is issued to the
stream (skipped is unchanged) and verify_end_state is not invoked
(verifyCount is unchanged) even when remain reaches 0. -/
theorem C10_clipped_non_proceed {σ : Type} (proc : ProcFun σ) (s : CState σ)
    (data : Buffer) (inner2 : σ) (rs2 : RS) (seg2 : Buffer) (evs : List Value)
    (ret : PResult)
    (hclip : s.remain ≤ data.length)
    (hp : proc s.inner s.rs (data.take s.remain)
      = some (inner2, rs2, seg2, evs, ret))
    (hny : presEqYes ret = false) :
    callback proc s data =
      some ({ s with
          inner := inner2, rs := rs2,
          remain := s.remain - (s.remain - seg2.length),
          position := s.position + (s.remain - seg2.length),
          delivered := s.delivered + (s.remain - seg2.length) }, evs,
        Outcome.stopConsuming (data.drop (s.remain - seg2.length))) := by
  rw [callback, if_pos hclip, hp]
  simp only
  rw [if_neg (by simp [hny])]

/-- Witness for C10: a skip_bytes verdict inside the clipped branch with
the whole window consumed; the result is stop_consuming, remain is 0,
and neither skipped nor verifyCount moved. -/
theorem C10_witness :
    callback (σ := Unit) (fun x rs b => some (x, rs, [], [], PResult.skip 3))
        { inner := (), remain := 2 } [1, 2, 3] =
      some ({ inner := (), rs := {}, position := 2, remain := 0,
              verifyCount := 0, delivered := 2, skipped := 0 }, [],
        Outcome.stopConsuming [3]) :=
  C10_clipped_non_proceed (σ := Unit)
    (fun x rs b => some (x, rs, [], [], PResult.skip 3))
    { inner := (), remain := 2 } [1, 2, 3] () {} [] [] (PResult.skip 3)
    (by decide) (by decide) (by decide)

/-! Well-formedness of the read machine and the reference semantics used
for the slicing-invariance claims. -/

/-- Bytes still needed to complete the armed prestate. -/
def pendingNeed (s : RS) : Nat :=
  match s.prestate with
  | Prestate.READING_U8 => 1 - s.pos
  | Prestate.READING_U16 => 2 - s.pos
  | Prestate.READING_U32 => 4 - s.pos
  | Prestate.READING_U64 => 8 - s.pos
  | Prestate.READING_BYTES => s.readBytesLen - s.pos
  | Prestate.NONE => 0

/-- Well-formed read machine: while a prestate is armed the cursor is
strictly below the width (the source asserts `_pos < len`) and the
scratch holds exactly `pos` bytes.  Every slow path establishes this
and do_process_buffer preserves it. -/
def wfRS (s : RS) : Prop :=
  (s.prestate = Prestate.READING_U8 → s.pos < 1 ∧ s.readInt.length = s.pos) ∧
  (s.prestate = Prestate.READING_U16 → s.pos < 2 ∧ s.readInt.length = s.pos) ∧
  (s.prestate = Prestate.READING_U32 → s.pos < 4 ∧ s.readInt.length = s.pos) ∧
  (s.prestate = Prestate.READING_U64 → s.pos < 8 ∧ s.readInt.length = s.pos) ∧
  (s.prestate = Prestate.READING_BYTES →
    s.pos < s.readBytesLen ∧ s.readBytes.length = s.pos)

instance (s : RS) : Decidable (wfRS s) := by
  unfold wfRS; infer_instance

theorem wfRS_of_none (s : RS) (h : s.prestate = Prestate.NONE) : wfRS s := by
  refine ⟨?_, ?_, ?_, ?_, ?_⟩ <;> (intro hc; rw [h] at hc; exact Prestate.noConfusion hc)

/-- The value the armed prestate will publish once the missing bytes
(argument `chunk`) arrive. -/
def finishValue (s : RS) (chunk : Buffer) : Value :=
  match s.prestate with
  | Prestate.READING_BYTES => Value.vBytes (s.readBytes ++ chunk)
  | Prestate.READING_U8 => Value.vU8 (read_be (s.readInt ++ chunk))
  | Prestate.READING_U16 => Value.vU16 (read_be (s.readInt ++ chunk))
  | Prestate.READING_U32 => Value.vU32 (read_be (s.readInt ++ chunk))
  | Prestate.READING_U64 => Value.vU64 (read_be (s.readInt ++ chunk))
  | Prestate.NONE => Value.vU8 0

/-- Width in bytes of a read request. -/
def reqWidth : Req → Nat
  | Req.u8 => 1
  | Req.u16 => 2
  | Req.u32 => 4
  | Req.u64 => 8
  | Req.bytes n => n

/-- The value a request publishes, given the bytes of its encoding. -/
def reqEvent : Req → Buffer → Value
  | Req.u8, bs => Value.vU8 (read_be bs)
  | Req.u16, bs => Value.vU16 (read_be bs)
  | Req.u32, bs => Value.vU32 (read_be bs)
  | Req.u64, bs => Value.vU64 (read_be bs)
  | Req.bytes _, bs => Value.vBytes bs

/-- Reference semantics: the values a straight-line read program
publishes from a byte sequence, independent of any buffer slicing.
Each request consumes its width; a request whose encoding is not fully
available publishes nothing. -/
def refRun : List Req → Buffer → List Value
  | [], _ => []
  | r :: rest, bs =>
    if reqWidth r ≤ bs.length then
      reqEvent r (bs.take (reqWidth r)) :: refRun rest (bs.drop (reqWidth r))
    else []

/-- Every request of the program has positive width (in particular no
zero-length read_bytes). -/
def posWidths (prog : List Req) : Prop := ∀ r ∈ prog, 1 ≤ reqWidth r

instance (prog : List Req) : Decidable (posWidths prog) := by
  unfold posWidths; infer_instance

/-- Reference semantics from a mid-run configuration: first finish the
armed prestate (if any), then run the remaining program. -/
def refFrom (s : RS) (prog : List Req) (bs : Buffer) : List Value :=
  if s.prestate = Prestate.NONE then refRun prog bs
  else if pendingNeed s ≤ bs.length then
    finishValue s (bs.take (pendingNeed s)) ::
      refRun prog (bs.drop (pendingNeed s))
  else []

/-- do_process_buffer when the buffer is too small to finish the read:
everything is consumed into the scratch, the prestate stays armed, no
value is published, and the resulting configuration denotes the same
reference continuation. -/
theorem dpb_partial (s : RS) (d : Buffer) (hwf : wfRS s)
    (harm : s.prestate ≠ Prestate.NONE) (h : d.length < pendingNeed s) :
    ∃ s1, do_process_buffer s d = some (s1, [], []) ∧ wfRS s1 ∧
      s1.prestate = s.prestate ∧
      (∀ (prog : List Req) (bs : Buffer),
        refFrom s1 prog bs = refFrom s prog (d ++ bs)) := by
  obtain ⟨ps, pos, ri, rb, rbl, a8, a16, a32, a64, sl⟩ := s
  obtain ⟨w1, w2, w3, w4, w5⟩ := hwf
  cases ps
  case NONE => exact absurd rfl harm
  case READING_BYTES =>
    obtain ⟨hpos0, hlen0⟩ := w5 rfl
    have hpos : pos < rbl := hpos0
    have hlen : rb.length = pos := hlen0
    simp only [pendingNeed] at h
    refine ⟨{
        prestate := Prestate.READING_BYTES, pos := pos + d.length,
        readInt := ri, readBytes := rb ++ d, readBytesLen := rbl, u8 := a8,
        u16 := a16, u32 := a32, u64 := a64, slot := sl }, ?_, ?_, rfl, ?_⟩
    · simp only [do_process_buffer]
      rw [Nat.min_eq_right (le_of_lt h)]
      split
      · rename_i heq; exact absurd heq (by omega)
      · simp
    · simp [wfRS]
      omega
    · intro prog bs
      have hns : Prestate.READING_BYTES ≠ Prestate.NONE := by simp
      simp only [refFrom, pendingNeed, finishValue, List.length_append]
      rw [if_neg hns, if_neg hns,
        take_append_ge d bs _ (le_of_lt h), drop_append_ge d bs _ (le_of_lt h)]
      split
      · rename_i hc
        rw [if_pos (by omega)]
        simp [Nat.sub_sub, List.append_assoc]
      · rename_i hc
        rw [if_neg (by omega)]
  case READING_U8 =>
    obtain ⟨hpos0, hlen0⟩ := w1 rfl
    have hpos : pos < 1 := hpos0
    have hlen : ri.length = pos := hlen0
    simp only [pendingNeed] at h
    have hd : d = [] := List.eq_nil_of_length_eq_zero (by omega)
    subst hd
    refine ⟨{
        prestate := Prestate.READING_U8, pos := pos + List.length ([] : Buffer),
        readInt := ri ++ [], readBytes := rb, readBytesLen := rbl, u8 := a8,
        u16 := a16, u32 := a32, u64 := a64, slot := sl }, ?_, ?_, rfl, ?_⟩
    · simp only [do_process_buffer, intWidth]
      rw [if_pos hpos, Nat.min_eq_right (le_of_lt h)]
      split
      · rename_i heq; exact absurd heq (by omega)
      · simp
    · simp [wfRS]
      omega
    · intro prog bs
      have hns : Prestate.READING_U8 ≠ Prestate.NONE := by simp
      simp only [refFrom, pendingNeed, finishValue, List.length_append]
      rw [if_neg hns, if_neg hns,
        take_append_ge ([] : Buffer) bs _ (le_of_lt h),
        drop_append_ge ([] : Buffer) bs _ (le_of_lt h)]
      split
      · rename_i hc
        rw [if_pos (by omega)]
        simp [Nat.sub_sub, List.append_assoc]
      · rename_i hc
        rw [if_neg (by omega)]
  case READING_U16 =>
    obtain ⟨hpos0, hlen0⟩ := w2 rfl
    have hpos : pos < 2 := hpos0
    have hlen : ri.length = pos := hlen0
    simp only [pendingNeed] at h
    refine ⟨{
        prestate := Prestate.READING_U16, pos := pos + d.length,
        readInt := ri ++ d, readBytes := rb, readBytesLen := rbl, u8 := a8,
        u16 := a16, u32 := a32, u64 := a64, slot := sl }, ?_, ?_, rfl, ?_⟩
    · simp only [do_process_buffer, intWidth]
      rw [if_pos hpos, Nat.min_eq_right (le_of_lt h)]
      split
      · rename_i heq; exact absurd heq (by omega)
      · simp
    · simp [wfRS]
      omega
    · intro prog bs
      have hns : Prestate.READING_U16 ≠ Prestate.NONE := by simp
      simp only [refFrom, pendingNeed, finishValue, List.length_append]
      rw [if_neg hns, if_neg hns,
        take_append_ge d bs _ (le_of_lt h), drop_append_ge d bs _ (le_of_lt h)]
      split
      · rename_i hc
        rw [if_pos (by omega)]
        simp [Nat.sub_sub, List.append_assoc]
      · rename_i hc
        rw [if_neg (by omega)]
  case READING_U32 =>
    obtain ⟨hpos0, hlen0⟩ := w3 rfl
    have hpos : pos < 4 := hpos0
    have hlen : ri.length = pos := hlen0
    simp only [pendingNeed] at h
    refine ⟨{
        prestate := Prestate.READING_U32, pos := pos + d.length,
        readInt := ri ++ d, readBytes := rb, readBytesLen := rbl, u8 := a8,
        u16 := a16, u32 := a32, u64 := a64, slot := sl }, ?_, ?_, rfl, ?_⟩
    · simp only [do_process_buffer, intWidth]
      rw [if_pos hpos, Nat.min_eq_right (le_of_lt h)]
      split
      · rename_i heq; exact absurd heq (by omega)
      · simp
    · simp [wfRS]
      omega
    · intro prog bs
      have hns : Prestate.READING_U32 ≠ Prestate.NONE := by simp
      simp only [refFrom, pendingNeed, finishValue, List.length_append]
      rw [if_neg hns, if_neg hns,
        take_append_ge d bs _ (le_of_lt h), drop_append_ge d bs _ (le_of_lt h)]
      split
      · rename_i hc
        rw [if_pos (by omega)]
        simp [Nat.sub_sub, List.append_assoc]
      · rename_i hc
        rw [if_neg (by omega)]
  case READING_U64 =>
    obtain ⟨hpos0, hlen0⟩ := w4 rfl
    have hpos : pos < 8 := hpos0
    have hlen : ri.length = pos := hlen0
    simp only [pendingNeed] at h
    refine ⟨{
        prestate := Prestate.READING_U64, pos := pos + d.length,
        readInt := ri ++ d, readBytes := rb, readBytesLen := rbl, u8 := a8,
        u16 := a16, u32 := a32, u64 := a64, slot := sl }, ?_, ?_, rfl, ?_⟩
    · simp only [do_process_buffer, intWidth]
      rw [if_pos hpos, Nat.min_eq_right (le_of_lt h)]
      split
      · rename_i heq; exact absurd heq (by omega)
      · simp
    · simp [wfRS]
      omega
    · intro prog bs
      have hns : Prestate.READING_U64 ≠ Prestate.NONE := by simp
      simp only [refFrom, pendingNeed, finishValue, List.length_append]
      rw [if_neg hns, if_neg hns,
        take_append_ge d bs _ (le_of_lt h), drop_append_ge d bs _ (le_of_lt h)]
      split
      · rename_i hc
        rw [if_pos (by omega)]
        simp [Nat.sub_sub, List.append_assoc]
      · rename_i hc
        rw [if_neg (by omega)]

/-- do_process_buffer when the buffer completes the read: exactly the
missing bytes are consumed, the assembled value is published, the
prestate is disarmed, and the reference continuation unfolds one
pending value. -/
theorem dpb_complete (s : RS) (d : Buffer) (hwf : wfRS s)
    (harm : s.prestate ≠ Prestate.NONE) (h : pendingNeed s ≤ d.length) :
    ∃ s1, do_process_buffer s d
        = some (s1, d.drop (pendingNeed s),
            [finishValue s (d.take (pendingNeed s))]) ∧
      s1.prestate = Prestate.NONE ∧
      (∀ (prog : List Req) (bs : Buffer),
        refFrom s prog (d ++ bs)
          = finishValue s (d.take (pendingNeed s)) ::
            refRun prog ((d.drop (pendingNeed s)) ++ bs)) := by
  obtain ⟨ps, pos, ri, rb, rbl, a8, a16, a32, a64, sl⟩ := s
  obtain ⟨w1, w2, w3, w4, w5⟩ := hwf
  cases ps
  case NONE => exact absurd rfl harm
  case READING_BYTES =>
    obtain ⟨hpos0, hlen0⟩ := w5 rfl
    have hpos : pos < rbl := hpos0
    have hlen : rb.length = pos := hlen0
    simp only [pendingNeed, finishValue] at h ⊢
    refine ⟨{
        prestate := Prestate.NONE, pos := pos + (rbl - pos),
        readInt := ri, readBytes := [], readBytesLen := rbl, u8 := a8,
        u16 := a16, u32 := a32, u64 := a64,
        slot := rb ++ d.take (rbl - pos) }, ?_, rfl, ?_⟩
    · simp only [do_process_buffer]
      rw [Nat.min_eq_left h]
      split
      · simp
      · rename_i hne; exact absurd (by omega) hne
    · intro prog bs
      have hns : Prestate.READING_BYTES ≠ Prestate.NONE := by simp
      simp only [refFrom, pendingNeed, finishValue, List.length_append]
      rw [if_neg hns, take_append_le d bs _ h, drop_append_le d bs _ h,
        if_pos (by omega)]
  case READING_U8 =>
    obtain ⟨hpos0, hlen0⟩ := w1 rfl
    have hpos : pos < 1 := hpos0
    have hlen : ri.length = pos := hlen0
    simp only [pendingNeed, finishValue] at h ⊢
    refine ⟨{
        prestate := Prestate.NONE, pos := pos + (1 - pos),
        readInt := ri ++ d.take (1 - pos), readBytes := rb,
        readBytesLen := rbl,
        u8 := read_be (ri ++ d.take (1 - pos)), u16 := a16, u32 := a32, u64 := a64,
        slot := sl }, ?_, rfl, ?_⟩
    · simp only [do_process_buffer, intWidth]
      rw [if_pos hpos, Nat.min_eq_left h]
      split
      · simp [storeInt]
      · rename_i hne; exact absurd (by omega) hne
    · intro prog bs
      have hns : Prestate.READING_U8 ≠ Prestate.NONE := by simp
      simp only [refFrom, pendingNeed, finishValue, List.length_append]
      rw [if_neg hns, take_append_le d bs _ h, drop_append_le d bs _ h,
        if_pos (by omega)]
  case READING_U16 =>
    obtain ⟨hpos0, hlen0⟩ := w2 rfl
    have hpos : pos < 2 := hpos0
    have hlen : ri.length = pos := hlen0
    simp only [pendingNeed, finishValue] at h ⊢
    refine ⟨{
        prestate := Prestate.NONE, pos := pos + (2 - pos),
        readInt := ri ++ d.take (2 - pos), readBytes := rb,
        readBytesLen := rbl,
        u8 := a8, u16 := read_be (ri ++ d.take (2 - pos)), u32 := a32, u64 := a64,
        slot := sl }, ?_, rfl, ?_⟩
    · simp only [do_process_buffer, intWidth]
      rw [if_pos hpos, Nat.min_eq_left h]
      split
      · simp [storeInt]
      · rename_i hne; exact absurd (by omega) hne
    · intro prog bs
      have hns : Prestate.READING_U16 ≠ Prestate.NONE := by simp
      simp only [refFrom, pendingNeed, finishValue, List.length_append]
      rw [if_neg hns, take_append_le d bs _ h, drop_append_le d bs _ h,
        if_pos (by omega)]
  case READING_U32 =>
    obtain ⟨hpos0, hlen0⟩ := w3 rfl
    have hpos : pos < 4 := hpos0
    have hlen : ri.length = pos := hlen0
    simp only [pendingNeed, finishValue] at h ⊢
    refine ⟨{
        prestate := Prestate.NONE, pos := pos + (4 - pos),
        readInt := ri ++ d.take (4 - pos), readBytes := rb,
        readBytesLen := rbl,
        u8 := a8, u16 := a16, u32 := read_be (ri ++ d.take (4 - pos)), u64 := a64,
        slot := sl }, ?_, rfl, ?_⟩
    · simp only [do_process_buffer, intWidth]
      rw [if_pos hpos, Nat.min_eq_left h]
      split
      · simp [storeInt]
      · rename_i hne; exact absurd (by omega) hne
    · intro prog bs
      have hns : Prestate.READING_U32 ≠ Prestate.NONE := by simp
      simp only [refFrom, pendingNeed, finishValue, List.length_append]
      rw [if_neg hns, take_append_le d bs _ h, drop_append_le d bs _ h,
        if_pos (by omega)]
  case READING_U64 =>
    obtain ⟨hpos0, hlen0⟩ := w4 rfl
    have hpos : pos < 8 := hpos0
    have hlen : ri.length = pos := hlen0
    simp only [pendingNeed, finishValue] at h ⊢
    refine ⟨{
        prestate := Prestate.NONE, pos := pos + (8 - pos),
        readInt := ri ++ d.take (8 - pos), readBytes := rb,
        readBytesLen := rbl,
        u8 := a8, u16 := a16, u32 := a32, u64 := read_be (ri ++ d.take (8 - pos)),
        slot := sl }, ?_, rfl, ?_⟩
    · simp only [do_process_buffer, intWidth]
      rw [if_pos hpos, Nat.min_eq_left h]
      split
      · simp [storeInt]
      · rename_i hne; exact absurd (by omega) hne
    · intro prog bs
      have hns : Prestate.READING_U64 ≠ Prestate.NONE := by simp
      simp only [refFrom, pendingNeed, finishValue, List.length_append]
      rw [if_neg hns, take_append_le d bs _ h, drop_append_le d bs _ h,
        if_pos (by omega)]

/-- C6: armed-prestate assertion validity.  From a well-formed state, if
the prestate is still armed after process_buffer ran on the current
buffer, then the buffer was necessarily drained (the
`assert(data.size() == 0)` cannot fail), and `process` returns
`proceed::yes` right there without invoking the StateProcessor, for any
processor `P`.  This holds because every slow path arms the prestate
only after trimming the buffer to empty and do_process_buffer consumes
`min(width - pos, data.size())` bytes. -/
theorem C6_armed_prestate {π : Type} (P : Processor π) (p : π) (fuel : Nat)
    (s : RS) (d : Buffer) (hwf : wfRS s) (hfuel : 1 ≤ fuel)
    (henter : d ≠ [] ∨ P.non_consuming p = true)
    (s1 : RS) (d1 : Buffer) (ev1 : List Value)
    (hpb : process_buffer s d = some (s1, d1, ev1))
    (harmed : s1.prestate ≠ Prestate.NONE) :
    d1 = [] ∧ process P fuel p s d = some (p, s1, [], ev1, PResult.yes) := by
  have hd1 : d1 = [] := by
    rw [process_buffer] at hpb
    split at hpb
    · rename_i harm
      by_cases hcase : pendingNeed s ≤ d.length
      · obtain ⟨s1x, heq, hnone, -⟩ := dpb_complete s d hwf harm hcase
        rw [heq] at hpb
        cases hpb
        exact absurd hnone harmed
      · obtain ⟨s1x, heq, -, -, -⟩ := dpb_partial s d hwf harm (by omega)
        rw [heq] at hpb
        cases hpb
        rfl
    · rename_i hnn
      cases hpb
      exact absurd harmed hnn
  subst hd1
  refine ⟨rfl, ?_⟩
  obtain ⟨k, rfl⟩ : ∃ k, fuel = k + 1 := ⟨fuel - 1, by omega⟩
  simp [process, henter, hpb, harmed]

/-- Witness for C6: a READING_U32 prestate with one byte accumulated
receives a single further byte; the prestate stays armed, the buffer is
drained and process returns proceed::yes. -/
theorem C6_witness :
    (([] : Buffer) = [] ∧
      process (π := Unit)
        { step := fun p s d => (p, s, d, [], PResult.no),
          non_consuming := fun _ => false } 1 ()
        { prestate := Prestate.READING_U32, pos := 1, readInt := [5] } [7] =
        some ((), { prestate := Prestate.READING_U32, pos := 2,
                    readInt := [5, 7] }, [], [], PResult.yes)) :=
  C6_armed_prestate (π := Unit)
    { step := fun p s d => (p, s, d, [], PResult.no),
      non_consuming := fun _ => false } () 1
    { prestate := Prestate.READING_U32, pos := 1, readInt := [5] } [7]
    (by decide) (by decide) (Or.inl (by decide))
    { prestate := Prestate.READING_U32, pos := 2, readInt := [5, 7] } [] []
    (by decide) (by decide)

/-- A fast-path read: the buffer holds the whole encoding; the value is
published, the width is trimmed, and the prestate is untouched. -/
theorem readReq_fast (r : Req) (s : RS) (d : Buffer)
    (h : reqWidth r ≤ d.length) :
    ∃ s2, readReq r s d
        = (s2, d.drop (reqWidth r), [reqEvent r (d.take (reqWidth r))],
          ReadStatus.ready) ∧
      s2.prestate = s.prestate := by
  cases r
  case u8 =>
    exact ⟨{ s with u8 := read_be (d.take 1) },
      by simp only [reqWidth] at h; simp [readReq, read_8, reqWidth, reqEvent, h], rfl⟩
  case u16 =>
    exact ⟨{ s with u16 := read_be (d.take 2) },
      by simp only [reqWidth] at h; simp [readReq, read_16, reqWidth, reqEvent, h], rfl⟩
  case u32 =>
    exact ⟨{ s with u32 := read_be (d.take 4) },
      by simp only [reqWidth] at h; simp [readReq, read_32, reqWidth, reqEvent, h], rfl⟩
  case u64 =>
    exact ⟨{ s with u64 := read_be (d.take 8) },
      by simp only [reqWidth] at h; simp [readReq, read_64, reqWidth, reqEvent, h], rfl⟩
  case bytes len =>
    exact ⟨{ s with slot := d.take len },
      by simp only [reqWidth] at h; simp [readReq, read_bytes, reqWidth, reqEvent, h], rfl⟩

/-- A slow-path read: the buffer is too short; it is copied into the
scratch, trimmed to empty, the matching prestate is armed (well-formed),
and the armed configuration denotes the reference run of the request
followed by the rest. -/
theorem readReq_slow (r : Req) (s : RS) (d : Buffer)
    (h : d.length < reqWidth r) :
    ∃ s2, readReq r s d = (s2, [], [], ReadStatus.waiting) ∧ wfRS s2 ∧
      s2.prestate ≠ Prestate.NONE ∧
      (∀ (prog2 : List Req) (bs : Buffer),
        refFrom s2 prog2 bs = refRun (r :: prog2) (d ++ bs)) := by
  cases r
  case u8 =>
    simp only [reqWidth] at h
    have hd : d = [] := List.eq_nil_of_length_eq_zero (by omega)
    subst hd
    refine ⟨{ s with pos := 0, readInt := [], prestate := Prestate.READING_U8 },
      by simp [readReq, read_8], ?_, by simp, ?_⟩
    · simp [wfRS]
    · intro prog2 bs
      simp [refFrom, pendingNeed, finishValue, refRun, reqWidth, reqEvent]
  case u16 =>
    simp only [reqWidth] at h
    have h2 : ¬ (2 ≤ d.length) := by omega
    refine ⟨{ s with
        readInt := d, pos := d.length,
        prestate := Prestate.READING_U16 },
      by simp [readReq, read_16, h2], ?_, by simp, ?_⟩
    · simp [wfRS]
      omega
    · intro prog2 bs
      have hns : Prestate.READING_U16 ≠ Prestate.NONE := by simp
      simp only [refFrom, pendingNeed, finishValue, refRun, reqWidth, reqEvent,
        List.length_append]
      rw [if_neg hns, take_append_ge d bs _ (le_of_lt h),
        drop_append_ge d bs _ (le_of_lt h)]
      split
      · rename_i hc
        rw [if_pos (by omega)]
      · rename_i hc
        rw [if_neg (by omega)]
  case u32 =>
    simp only [reqWidth] at h
    have h2 : ¬ (4 ≤ d.length) := by omega
    refine ⟨{ s with
        readInt := d, pos := d.length,
        prestate := Prestate.READING_U32 },
      by simp [readReq, read_32, h2], ?_, by simp, ?_⟩
    · simp [wfRS]
      omega
    · intro prog2 bs
      have hns : Prestate.READING_U32 ≠ Prestate.NONE := by simp
      simp only [refFrom, pendingNeed, finishValue, refRun, reqWidth, reqEvent,
        List.length_append]
      rw [if_neg hns, take_append_ge d bs _ (le_of_lt h),
        drop_append_ge d bs _ (le_of_lt h)]
      split
      · rename_i hc
        rw [if_pos (by omega)]
      · rename_i hc
        rw [if_neg (by omega)]
  case u64 =>
    simp only [reqWidth] at h
    have h2 : ¬ (8 ≤ d.length) := by omega
    refine ⟨{ s with
        readInt := d, pos := d.length,
        prestate := Prestate.READING_U64 },
      by simp [readReq, read_64, h2], ?_, by simp, ?_⟩
    · simp [wfRS]
      omega
    · intro prog2 bs
      have hns : Prestate.READING_U64 ≠ Prestate.NONE := by simp
      simp only [refFrom, pendingNeed, finishValue, refRun, reqWidth, reqEvent,
        List.length_append]
      rw [if_neg hns, take_append_ge d bs _ (le_of_lt h),
        drop_append_ge d bs _ (le_of_lt h)]
      split
      · rename_i hc
        rw [if_pos (by omega)]
      · rename_i hc
        rw [if_neg (by omega)]
  case bytes len =>
    simp only [reqWidth] at h
    have h2 : ¬ (len ≤ d.length) := by omega
    refine ⟨{ s with
        readBytes := d, readBytesLen := len, pos := d.length,
        prestate := Prestate.READING_BYTES },
      by simp [readReq, read_bytes, h2], ?_, by simp, ?_⟩
    · simp [wfRS]
      omega
    · intro prog2 bs
      have hns : Prestate.READING_BYTES ≠ Prestate.NONE := by simp
      simp only [refFrom, pendingNeed, finishValue, refRun, reqWidth, reqEvent,
        List.length_append]
      rw [if_neg hns, take_append_ge d bs _ (le_of_lt h),
        drop_append_ge d bs _ (le_of_lt h)]
      split
      · rename_i hc
        rw [if_pos (by omega)]
      · rename_i hc
        rw [if_neg (by omega)]

/-- With positive request widths and a well-formed state, the reference
continuation publishes nothing from an empty byte sequence. -/
theorem refFrom_nil (s : RS) (prog : List Req) (hwf : wfRS s)
    (hpos : posWidths prog) : refFrom s prog [] = [] := by
  rw [refFrom]
  split
  · rename_i hns
    cases prog with
    | nil => rfl
    | cons r rest =>
      rw [refRun, if_neg ?_]
      have := hpos r (by simp)
      simp
      omega
  · rename_i hns
    rw [if_neg ?_]
    obtain ⟨w1, w2, w3, w4, w5⟩ := hwf
    rcases hps : s.prestate with h0 | h1 | h2 | h3 | h4 | h5 <;>
      simp [pendingNeed, hps]
    · exact absurd hps hns
    · have := w1 hps; omega
    · have := w2 hps; omega
    · have := w3 hps; omega
    · have := w4 hps; omega
    · have := w5 hps; omega

/-- The loop returns immediately on an empty buffer. -/
theorem processProg_nil_buffer (prog : List Req) (s : RS) :
    processProg prog s [] = some (prog, s, [], [], PResult.yes) := by
  rw [processProg]
  simp

/-- Main loop invariant from a disarmed state: the loop publishes
exactly the reference events of the delivered bytes and leaves a
configuration denoting the reference continuation.  A `proceed::yes`
verdict means the buffer was drained; any other verdict is
`proceed::no` from an exhausted program. -/
theorem processProg_spec_none (prog : List Req) :
    posWidths prog → ∀ (s : RS) (d : Buffer), wfRS s →
      s.prestate = Prestate.NONE →
      ∃ p2 s2 l ev r,
        processProg prog s d = some (p2, s2, l, ev, r) ∧
        wfRS s2 ∧ posWidths p2 ∧
        (∀ rest, refRun prog (d ++ rest) = ev ++ refFrom s2 p2 (l ++ rest)) ∧
        (r = PResult.yes → l = []) ∧
        (r ≠ PResult.yes →
          r = PResult.no ∧ p2 = [] ∧ s2.prestate = Prestate.NONE) := by
  induction prog with
  | nil =>
    intro hpos s d hwf hns
    by_cases hd : d = []
    · subst hd
      refine ⟨[], s, [], [], PResult.yes, processProg_nil_buffer [] s, hwf, hpos,
        ?_, fun _ => rfl, fun hr => absurd rfl hr⟩
      intro rest
      simp [refFrom, hns, refRun]
    · have hnsne : ¬ (s.prestate ≠ Prestate.NONE) := by simp [hns]
      refine ⟨[], s, d, [], PResult.no, ?_, hwf, hpos, ?_, ?_, ?_⟩
      · rw [processProg, if_neg hd, process_buffer, if_neg hnsne]
        simp [hns]
      · intro rest
        simp [refFrom, refRun, hns]
      · intro hr; cases hr
      · intro hr2; exact ⟨rfl, rfl, hns⟩
  | cons r rest ih =>
    intro hpos s d hwf hns
    have hposr : 1 ≤ reqWidth r := hpos r (by simp)
    have hposrest : posWidths rest := fun q hq => hpos q (by simp [hq])
    have hnsne : ¬ (s.prestate ≠ Prestate.NONE) := by simp [hns]
    by_cases hd : d = []
    · subst hd
      refine ⟨r :: rest, s, [], [], PResult.yes,
        processProg_nil_buffer (r :: rest) s, hwf, hpos, ?_, fun _ => rfl,
        fun hr => absurd rfl hr⟩
      intro rest2
      simp [refFrom, hns]
    · by_cases hfast : reqWidth r ≤ d.length
      · obtain ⟨s2, hread, hps2⟩ := readReq_fast r s d hfast
        obtain ⟨p3, s3, l3, ev3, r3, hrec, hwf3, hpos3, href3, hyes3, hno3⟩ :=
          ih hposrest s2 (d.drop (reqWidth r))
            (wfRS_of_none s2 (hps2.trans hns)) (hps2.trans hns)
        refine ⟨p3, s3, l3, reqEvent r (d.take (reqWidth r)) :: ev3, r3, ?_,
          hwf3, hpos3, ?_, hyes3, hno3⟩
        · rw [processProg, if_neg hd, process_buffer, if_neg hnsne]
          simp [hns, hread, hrec]
        · intro rest2
          simp only [refRun, List.length_append]
          rw [if_pos (by omega), take_append_le d rest2 _ hfast,
            drop_append_le d rest2 _ hfast, href3 rest2]
          simp
      · obtain ⟨s2, hread, hwf2, hps2, href2⟩ := readReq_slow r s d (by omega)
        refine ⟨rest, s2, [], [], PResult.yes, ?_, hwf2, hposrest, ?_,
          fun _ => rfl, fun hr => absurd rfl hr⟩
        · rw [processProg, if_neg hd, process_buffer, if_neg hnsne]
          simp [hns, hread, processProg_nil_buffer]
        · intro rest2
          simp only [List.nil_append]
          rw [href2 rest rest2]

/-- When the prestate completes with bytes of the buffer left over, the
loop continues exactly as a fresh invocation on the leftover, with the
publication event prepended. -/
theorem processProg_chain (prog : List Req) (s s1 : RS) (d l1 : Buffer)
    (ev1 : List Value)
    (hd : d ≠ []) (hl1 : l1 ≠ [])
    (harm : s.prestate ≠ Prestate.NONE)
    (hdpb : do_process_buffer s d = some (s1, l1, ev1))
    (hns1 : s1.prestate = Prestate.NONE) :
    processProg prog s d
      = (processProg prog s1 l1).map
          (fun out => (out.1, out.2.1, out.2.2.1, ev1 ++ out.2.2.2.1,
            out.2.2.2.2)) := by
  have hns1e : ¬ (s1.prestate ≠ Prestate.NONE) := by simp [hns1]
  rw [processProg, if_neg hd, process_buffer, if_pos harm, hdpb]
  cases prog with
  | nil =>
    rw [processProg, if_neg hl1, process_buffer, if_neg hns1e]
    simp [hns1]
  | cons r rest =>
    rcases hread : readReq r s1 l1 with ⟨s2, d2, ev2, st⟩
    rw [processProg, if_neg hl1, process_buffer, if_neg hns1e]
    cases hrec : processProg rest s2 d2 with
    | none => simp [hns1, hread, hrec]
    | some out => simp [hns1, hread, hrec]

/-- Per-chunk lemma: one non-empty buffer driven through the loop from
any well-formed configuration publishes exactly the reference events and
leaves the reference continuation. -/
theorem processProg_chunk (prog : List Req) (s : RS) (c : Buffer)
    (hpos : posWidths prog) (hwf : wfRS s) (hc : c ≠ []) :
    ∃ p2 s2 l ev r,
      processProg prog s c = some (p2, s2, l, ev, r) ∧
      wfRS s2 ∧ posWidths p2 ∧
      (∀ rest, refFrom s prog (c ++ rest) = ev ++ refFrom s2 p2 (l ++ rest)) ∧
      (r = PResult.yes → l = []) ∧
      (r ≠ PResult.yes →
        r = PResult.no ∧ p2 = [] ∧ s2.prestate = Prestate.NONE) := by
  by_cases hns : s.prestate = Prestate.NONE
  · obtain ⟨p2, s2, l, ev, r, heq, hwf2, hpos2, href, hyes, hno⟩ :=
      processProg_spec_none prog hpos s c hwf hns
    refine ⟨p2, s2, l, ev, r, heq, hwf2, hpos2, ?_, hyes, hno⟩
    intro rest
    rw [refFrom, if_pos hns]
    exact href rest
  · by_cases hneed : pendingNeed s ≤ c.length
    · obtain ⟨s1, hdpb, hnone, href1⟩ := dpb_complete s c hwf hns hneed
      by_cases hl1 : c.drop (pendingNeed s) = []
      · -- the completed value used the whole chunk
        have hns1e : ¬ (s1.prestate ≠ Prestate.NONE) := by simp [hnone]
        cases prog with
        | nil =>
          refine ⟨[], s1, [], [finishValue s (c.take (pendingNeed s))],
            PResult.no, ?_, wfRS_of_none s1 hnone, hpos, ?_, ?_, ?_⟩
          · rw [processProg, if_neg hc, process_buffer, if_pos hns, hdpb]
            simp [hnone, hl1]
          · intro rest
            rw [href1 [] rest]
            simp [hl1, refFrom, hnone, refRun]
          · intro hr; cases hr
          · intro hr2; exact ⟨rfl, rfl, hnone⟩
        | cons r rest =>
          have hposr : 1 ≤ reqWidth r := hpos r (by simp)
          have hposrest : posWidths rest := fun q hq => hpos q (by simp [hq])
          obtain ⟨s2, hread, hwf2, hps2, href2⟩ := readReq_slow r s1 [] hposr
          refine ⟨rest, s2, [], [finishValue s (c.take (pendingNeed s))],
            PResult.yes, ?_, hwf2, hposrest, ?_, fun _ => rfl,
            fun hr => absurd rfl hr⟩
          · rw [processProg, if_neg hc, process_buffer, if_pos hns, hdpb]
            simp [hnone, hl1, hread, processProg_nil_buffer]
          · intro rest2
            rw [href1 (r :: rest) rest2, href2 rest ([] ++ rest2), hl1]
            simp
      · -- leftover bytes remain after the completed value: chain and
        -- run the disarmed loop on the leftover
        obtain ⟨p2, s2, l, ev, r, heq, hwf2, hpos2, href, hyes, hno⟩ :=
          processProg_spec_none prog hpos s1 (c.drop (pendingNeed s))
            (wfRS_of_none s1 hnone) hnone
        refine ⟨p2, s2, l, finishValue s (c.take (pendingNeed s)) :: ev, r,
          ?_, hwf2, hpos2, ?_, hyes, hno⟩
        · rw [processProg_chain prog s s1 c (c.drop (pendingNeed s)) _ hc hl1
            hns hdpb hnone, heq]
          simp
        · intro rest
          rw [href1 prog rest, href rest]
          simp
    · obtain ⟨s1, hdpb, hwf1, hps1, href1⟩ := dpb_partial s c hwf hns (by omega)
      refine ⟨prog, s1, [], [], PResult.yes, ?_, hwf1, hpos, ?_, fun _ => rfl,
        fun hr => absurd rfl hr⟩
      · rw [processProg, if_neg hc, process_buffer, if_pos hns, hdpb]
        simp [hps1, hns]
      · intro rest
        simp only [List.nil_append]
        rw [href1 prog rest]

/-- Protocol runs of the callback with the program processor publish
exactly the reference events of the joined byte sequence, whenever the
window is larger than the bytes delivered (each buffer lands in the
regular branch of operator()). -/
theorem callbackRun_processProg (cs : List Buffer) :
    ∀ (prog : List Req) (rs : RS) (pos0 dl sk vc remain : Nat),
      posWidths prog → wfRS rs → (∀ c ∈ cs, c ≠ []) →
      (cs.join).length < remain →
      ∃ s3 st, callbackRun processProg
          { inner := prog, rs := rs, position := pos0, remain := remain,
            verifyCount := vc, delivered := dl, skipped := sk } cs
        = some (s3, refFrom rs prog cs.join, st) := by
  induction cs with
  | nil =>
    intro prog rs pos0 dl sk vc remain hpos hwf hne hlen
    refine ⟨{
        inner := prog, rs := rs, position := pos0, remain := remain,
        verifyCount := vc, delivered := dl, skipped := sk }, false, ?_⟩
    rw [callbackRun]
    simp [refFrom_nil rs prog hwf hpos]
  | cons c cs ih =>
    intro prog rs pos0 dl sk vc remain hpos hwf hne hlen
    have hc : c ≠ [] := hne c (by simp)
    have hne2 : ∀ b ∈ cs, b ≠ [] := fun b hb => hne b (by simp [hb])
    have hj : ((c :: cs).join).length = c.length + (cs.join).length := by simp
    rw [hj] at hlen
    have hnotclip : ¬ (remain ≤ c.length) := by omega
    obtain ⟨p2, s2, l, ev, r, heq, hwf2, hpos2, href, hyes, hno⟩ :=
      processProg_chunk prog rs c hpos hwf hc
    cases r with
    | yes =>
      have hl : l = [] := hyes rfl
      subst hl
      have hcb : callback processProg
          { inner := prog, rs := rs, position := pos0, remain := remain,
            verifyCount := vc, delivered := dl, skipped := sk } c
          = some ({
              inner := p2, rs := s2, position := pos0 + c.length,
              remain := remain - c.length, verifyCount := vc,
              delivered := dl + c.length, skipped := sk }, ev,
            Outcome.continueConsuming) := by
        simp [callback, hnotclip, hc, heq]
      obtain ⟨s3, st, hrun⟩ :=
        ih p2 s2 (pos0 + c.length) (dl + c.length) sk vc (remain - c.length)
          hpos2 hwf2 hne2 (by omega)
      refine ⟨s3, st, ?_⟩
      rw [callbackRun, hcb]
      simp only []
      rw [hrun]
      have hev := href cs.join
      simp only [List.nil_append] at hev
      simp [hev]
    | no =>
      obtain ⟨-, hp2, hs2none⟩ := hno (by simp)
      have hcb : callback processProg
          { inner := prog, rs := rs, position := pos0, remain := remain,
            verifyCount := vc, delivered := dl, skipped := sk } c
          = some ({
              inner := p2, rs := s2,
              position := pos0 + c.length - l.length,
              remain := remain - (c.length - l.length), verifyCount := vc,
              delivered := dl + (c.length - l.length), skipped := sk }, ev,
            Outcome.stopConsuming l) := by
        simp [callback, hnotclip, hc, heq]
      refine ⟨{
          inner := p2, rs := s2,
          position := pos0 + c.length - l.length,
          remain := remain - (c.length - l.length), verifyCount := vc,
          delivered := dl + (c.length - l.length), skipped := sk }, true, ?_⟩
      rw [callbackRun, hcb]
      simp only []
      have hev := href cs.join
      have hz : refFrom s2 p2 (l ++ cs.join) = [] := by
        subst hp2
        rw [refFrom, if_pos hs2none, refRun]
      rw [hz] at hev
      simp [hev]
    | skip n =>
      exact absurd (hno (by simp)).1 (by simp)

/-- The specialised loop agrees with the generic fuelled drive loop
instantiated at the program processor, given fuel beyond the program
length (one request is retired per iteration). -/
theorem processProg_eq_process (prog : List Req) :
    ∀ (fuel : Nat) (s : RS) (d : Buffer), prog.length < fuel →
      process progProc fuel prog s d = processProg prog s d := by
  induction prog with
  | nil =>
    intro fuel s d hfuel
    obtain ⟨k, rfl⟩ : ∃ k, fuel = k + 1 := ⟨fuel - 1, by omega⟩
    rw [process, processProg]
    by_cases hd : d = []
    · have hcf : ¬ (d ≠ [] ∨ progProc.non_consuming [] = true) := by
        simp [hd, progProc]
      rw [if_neg hcf, if_pos hd]
    · have hct : (d ≠ [] ∨ progProc.non_consuming [] = true) := Or.inl hd
      rw [if_pos hct, if_neg hd]
      cases hpb : process_buffer s d with
      | none => simp only [hpb]
      | some out =>
        obtain ⟨s1, d1, ev1⟩ := out
        simp only [hpb]
        by_cases harm : s1.prestate ≠ Prestate.NONE
        · rw [if_pos harm, if_pos harm]
        · rw [if_neg harm, if_neg harm]
          simp [progProc, progStep, presEqYes]
  | cons r rest ih =>
    intro fuel s d hfuel
    obtain ⟨k, rfl⟩ : ∃ k, fuel = k + 1 := ⟨fuel - 1, by omega⟩
    rw [process, processProg]
    by_cases hd : d = []
    · have hcf : ¬ (d ≠ [] ∨ progProc.non_consuming (r :: rest) = true) := by
        simp [hd, progProc]
      rw [if_neg hcf, if_pos hd]
    · have hct : (d ≠ [] ∨ progProc.non_consuming (r :: rest) = true) :=
        Or.inl hd
      rw [if_pos hct, if_neg hd]
      cases hpb : process_buffer s d with
      | none => simp only [hpb]
      | some out =>
        obtain ⟨s1, d1, ev1⟩ := out
        simp only [hpb]
        by_cases harm : s1.prestate ≠ Prestate.NONE
        · rw [if_pos harm, if_pos harm]
        · rw [if_neg harm, if_neg harm]
          rcases hread : readReq r s1 d1 with ⟨s2, d2, ev2, st⟩
          have hk : rest.length < k := by simp at hfuel; omega
          have hstep : progProc.step = progStep := rfl
          cases hrec : processProg rest s2 d2 with
          | none =>
            simp [hstep, progStep, presEqYes, hread, ih k s2 d2 hk, hrec]
          | some out2 =>
            simp [hstep, progStep, presEqYes, hread, ih k s2 d2 hk, hrec]

/-- C1 counterexample: the published sequences depend on the slicing.
The StateProcessor reads a u16 and then a zero-length byte slice (a
state machine reading a length prefix that happens to be 0).  Delivered
as one buffer [0,0], the loop exits when the buffer empties right after
the u16 and the empty slice is never published inside the window;
delivered as [0] and [0], the second callback completes the u16 via the
prestate machine and process_state then runs with an empty buffer,
publishing the empty slice.  The two runs publish different
sequences. -/
theorem C1_counterexample :
    (callbackRun processProg
        { inner := [Req.u16, Req.bytes 0], rs := {}, position := 0,
          remain := 10, verifyCount := 0, delivered := 0, skipped := 0 }
        [[0], [0]]).map (fun out => out.2.1)
      ≠ (callbackRun processProg
          { inner := [Req.u16, Req.bytes 0], rs := {}, position := 0,
            remain := 10, verifyCount := 0, delivered := 0, skipped := 0 }
          [[0, 0]]).map (fun out => out.2.1) := by
  decide

/-- C1 (amended): slicing invariance holds provided every read request
the StateProcessor issues has positive width (in particular no
zero-length read_bytes).  For every byte sequence S, every partition of
S into non-empty buffers delivered in order to the callback publishes
the same sequence of primitive values to the StateProcessor as
delivering S as a single buffer — namely the reference sequence
refRun.  In particular a value whose encoding spans a buffer boundary
is published whole.  (Without the positivity proviso the claim fails,
see the counterexample: a zero-length read_bytes that becomes runnable
exactly when the buffered data is exhausted publishes an empty slice
only under the sliced delivery.) -/
theorem C1_slicing_invariance (prog : List Req) (chunks : List Buffer)
    (S : Buffer) (maxlen : Nat)
    (hpos : posWidths prog) (hjoin : chunks.join = S)
    (hne : ∀ c ∈ chunks, c ≠ []) (hS : S ≠ []) (hlen : S.length < maxlen) :
    (callbackRun processProg
        { inner := prog, rs := {}, position := 0, remain := maxlen,
          verifyCount := 0, delivered := 0, skipped := 0 } chunks).map
        (fun out => out.2.1)
      = (callbackRun processProg
          { inner := prog, rs := {}, position := 0, remain := maxlen,
            verifyCount := 0, delivered := 0, skipped := 0 } [S]).map
          (fun out => out.2.1) := by
  have hwf0 : wfRS {} := wfRS_of_none {} rfl
  obtain ⟨s3, st, hrun⟩ := callbackRun_processProg chunks prog {} 0 0 0 0
    maxlen hpos hwf0 hne (by rw [hjoin]; exact hlen)
  obtain ⟨s3b, stb, hrunb⟩ := callbackRun_processProg [S] prog {} 0 0 0 0
    maxlen hpos hwf0 (by simp [hS]) (by simp; exact hlen)
  rw [hrun, hrunb, hjoin]
  simp

/-- Witness for C1 (amended): a u16 split across two 1-byte buffers
publishes the same value as the whole encoding at once. -/
theorem C1_witness :
    (callbackRun processProg
        { inner := [Req.u16], rs := {}, position := 0, remain := 3,
          verifyCount := 0, delivered := 0, skipped := 0 } [[1], [2]]).map
        (fun out => out.2.1)
      = (callbackRun processProg
          { inner := [Req.u16], rs := {}, position := 0, remain := 3,
            verifyCount := 0, delivered := 0, skipped := 0 } [[1, 2]]).map
          (fun out => out.2.1) :=
  C1_slicing_invariance [Req.u16] [[1], [2]] [1, 2] 3 (by decide) (by decide)
    (by decide) (by decide) (by decide)

end Consumer
